import Mathlib

/-!
Verification of the dependency-aware schedule cascade engine of CELLA-PM
(src/App.tsx): `cascadeSchedule`, `checkDependencies`, and the merge step of
`handleConfirmChanges`, together with the data model from src/constants.ts.

Dates: the source stores calendar dates as `YYYY-MM-DD` strings and does all
arithmetic on `new Date(s).getTime()` milliseconds, where every value is an
exact whole-day multiple of 86400000 ms (UTC midnight).  We embed a date as an
integer number of days since the 1970-01-01 epoch (negative for earlier days);
the source shift `minStartMs - currentStartMs` and the sentinel comparison
`maxDependencyEnd > 0` translate verbatim to this unit.

Per-pass snapshot semantics: the source builds
`const taskMap = new Map(currentTasks.map(t => [t.id, t]))` once at the start
of each pass, holding references to the task objects current at that moment;
`currentTasks[i] = {...task, ...}` then replaces array slots with fresh
objects, so dependency lookups within a pass always see start-of-pass dates.
A pass is therefore a pure map over the list with the pass input as snapshot.
-/

namespace CellaPM

/-- Conversion of a civil calendar date to days since 1970-01-01 (the standard
days-from-civil algorithm), used to write concrete `YYYY-MM-DD` dates of the
spec as day numbers. -/
def daysFromCivil (y : Int) (m : Int) (d : Int) : Int :=
  let y2 : Int := if m ≤ 2 then y - 1 else y
  let era : Int := (if 0 ≤ y2 then y2 else y2 - 399) / 400
  let yoe : Int := y2 - era * 400
  let mp : Int := (m + 9) % 12
  let doy : Int := (153 * mp + 2) / 5 + d - 1
  let doe : Int := yoe * 365 + yoe / 4 - yoe / 100 + doy
  era * 146097 + doe - 719468

/-- Task record from src/constants.ts (interface Task).  `startDate` and
`endDate` are days since epoch; the optional UI markers `isNew` and `reason`
are `Option` fields, mirroring the optional TypeScript fields. -/
structure Task where
  id : String
  name : String
  startDate : Int
  endDate : Int
  duration : Int
  status : String
  assignee : String
  progress : Int
  dependencies : List String
  gmpCritical : Bool
  category : String
  isNew : Option Bool
  reason : Option String
deriving Repr, DecidableEq

/-- ProposedChange record from src/constants.ts. -/
structure ProposedChange where
  taskId : String
  taskName : Option String
  originalStartDate : Option Int
  originalEndDate : Option Int
  newStartDate : Int
  newEndDate : Int
  originalAssignee : Option String
  newAssignee : Option String
  changeReason : String
deriving Repr, DecidableEq

/-- Lookup in `new Map(currentTasks.map(t => [t.id, t]))`: for duplicate ids
the later Map insertion wins, so the fold keeps the last matching task. -/
def mapLookup (ts : List Task) (id : String) : Option Task :=
  ts.foldl (fun acc t => if t.id = id then some t else acc) none

/-- Body of the `task.dependencies.forEach` accumulation in cascadeSchedule:
`if (depEnd > maxDependencyEnd) maxDependencyEnd = depEnd` after a Map lookup
that silently skips unknown ids. -/
def depFold (snap : List Task) (acc : Int) (depId : String) : Int :=
  match mapLookup snap depId with
  | some dep => if dep.endDate > acc then dep.endDate else acc
  | none => acc

/-- Accumulated `maxDependencyEnd` starting from `0 // Epoch`. -/
def maxDepEnd (snap : List Task) (deps : List String) : Int :=
  deps.foldl (depFold snap) 0

/-- Update of one task during one pass of cascadeSchedule: tasks with no
dependencies are skipped; otherwise, when the accumulated maximum dependency
end is after the epoch and the task starts no later than it, both dates are
shifted forward by the same amount (`minStart = maxDependencyEnd + 1 day`). -/
def cascadeStep (snap : List Task) (task : Task) : Task :=
  if task.dependencies.isEmpty then task
  else if maxDepEnd snap task.dependencies > 0 then
    if task.startDate < maxDepEnd snap task.dependencies + 1 then
      { task with
          startDate := maxDepEnd snap task.dependencies + 1
          endDate := task.endDate + (maxDepEnd snap task.dependencies + 1 - task.startDate) }
    else task
  else task

/-- Condition under which the source sets `hasChanged = true` for one task. -/
def taskShifts (snap : List Task) (task : Task) : Bool :=
  !task.dependencies.isEmpty &&
    (decide (maxDepEnd snap task.dependencies > 0) &&
      decide (task.startDate < maxDepEnd snap task.dependencies + 1))

/-- One full pass of the `for` loop over `currentTasks`. -/
def cascadePass (ts : List Task) : List Task :=
  ts.map (cascadeStep ts)

/-- Whether any task set `hasChanged` during a pass over `ts`. -/
def passChanged (ts : List Task) : Bool :=
  ts.any (taskShifts ts)

/-- Fuel-indexed embedding of `while (hasChanged && iterations < 50)`. -/
def cascadeIter : Nat → List Task → List Task
  | 0, ts => ts
  | n + 1, ts =>
    let ts' := cascadePass ts
    if passChanged ts then cascadeIter n ts' else ts'

/-- cascadeSchedule from src/App.tsx: bounded fixed-point iteration over a
deep copy of the input, capped at 50 passes. -/
def cascadeSchedule (ts : List Task) : List Task :=
  cascadeIter 50 ts

/-- Dependencies of `t` that resolve to a task in `ts` via the per-pass Map. -/
def resolvedDeps (ts : List Task) (t : Task) : List Task :=
  t.dependencies.filterMap (mapLookup ts)

/-- Tuple of every Task field other than the two date fields; cascadeSchedule
is claimed to leave all of them untouched. -/
def frameOf (t : Task) :=
  (t.id, t.name, t.assignee, t.category, t.duration, t.status, t.dependencies,
    t.gmpCritical, t.progress, t.isNew, t.reason)

/-- Conflict record returned by checkDependencies:
`{ dependency: depTask, suggestedDate: ... }`. -/
structure Conflict where
  dependency : Task
  suggestedDate : Int
deriving Repr, DecidableEq

/-- checkDependencies from src/App.tsx: walk the dependencies of the updated
task in stored order; resolve each id with `allTasks.find` (first match); on
the first resolved dependency with `currentStart <= depEnd` return the
conflict with suggested date one day after that dependency ends. -/
def checkDependencies (updatedTask : Task) (allTasks : List Task) :
    Option Conflict :=
  if updatedTask.dependencies.isEmpty then none
  else
    updatedTask.dependencies.findSome? fun depId =>
      match allTasks.find? (fun t => t.id = depId) with
      | some depTask =>
        if updatedTask.startDate ≤ depTask.endDate then
          some { dependency := depTask, suggestedDate := depTask.endDate + 1 }
        else none
      | none => none

/-- Conflict check written from the words of the spec, for comparison with
the implementation: iterate `dependencies` in their stored order; for the
first dependency found in `allTasks` whose `endDate >= updatedTask.startDate`,
return the offending dependency and a suggested corrected start date of
`dependency.endDate + 1 day`; otherwise null. -/
def checkConflictSpec (updatedTask : Task) (allTasks : List Task) :
    Option Conflict :=
  updatedTask.dependencies.findSome? fun depId =>
    (allTasks.find? (fun t => t.id = depId)).bind fun depTask =>
      if depTask.endDate ≥ updatedTask.startDate then
        some { dependency := depTask, suggestedDate := depTask.endDate + 1 }
      else none

/-- Semantics of `change.newAssignee || task.assignee`: a missing or empty
(JS-falsy) new assignee keeps the old one. -/
def applyAssignee (newAssignee : Option String) (old : String) : String :=
  match newAssignee with
  | some a => if a = "" then old else a
  | none => old

/-- Update of one existing task by the first matching proposed change
(`changes.find(c => c.taskId === task.id)`); only dates and assignee are
rewritten. -/
def applyChange (changes : List ProposedChange) (task : Task) : Task :=
  match changes.find? (fun c => c.taskId = task.id) with
  | some change =>
    { task with
        startDate := change.newStartDate
        endDate := change.newEndDate
        assignee := applyAssignee change.newAssignee task.assignee }
  | none => task

/-- Removal of the transient `isNew` and `reason` markers from a committed
new task (`const { isNew, reason, ...rest } = t`). -/
def finalizeNewTask (t : Task) : Task :=
  { t with isNew := none, reason := none }

/-- The merged working set of handleConfirmChanges before the safety cascade:
updated existing tasks followed by the finalized new tasks. -/
def mergeProposal (tasks : List Task) (changes : List ProposedChange)
    (newTasks : List Task) : List Task :=
  tasks.map (applyChange changes) ++ newTasks.map finalizeNewTask

/-- Pure core of handleConfirmChanges in src/App.tsx: merge the proposal,
then auto-cascade dependencies over the merged set. -/
def handleConfirmChanges (tasks : List Task) (changes : List ProposedChange)
    (newTasks : List Task) : List Task :=
  cascadeSchedule (mergeProposal tasks changes newTasks)

/-- Unconditional iteration of the per-pass function, used to express that
cascadeSchedule is some number of passes of cascadePass. -/
def cascadePassIter : Nat → List Task → List Task
  | 0, ts => ts
  | n + 1, ts => cascadePassIter n (cascadePass ts)

/-- Concrete task builder for the fixtures; descriptive fields are fixed,
`duration` is kept consistent with the dates as the templates do. -/
def mkTask (id : String) (s e : Int) (deps : List String) : Task :=
  { id := id, name := id, startDate := s, endDate := e,
    duration := e - s + 1, status := "Not Started", assignee := "PM",
    progress := 0, dependencies := deps, gmpCritical := false,
    category := "General", isNew := none, reason := none }

/-- Synthetic dependency cycle of the spec (A depends on B, B depends on A),
parameterized by its common start day for the pass-by-pass analysis. -/
def cycPair (s : Int) : List Task :=
  [mkTask "A" s (s + 1) ["B"], mkTask "B" s (s + 1) ["A"]]

def chainTaskA : Task := mkTask "A" 0 1 []

def chainTaskB : Task := mkTask "B" 0 1 ["A"]

def ghostTask : Task := mkTask "G" 0 1 ["ghost"]

def negTask : Task := mkTask "X" 5 3 []

def preEpochP : Task := mkTask "P" (-10) (-8) ["Q"]

def preEpochQ : Task := mkTask "Q" (-20) (-5) []

def taskA2310 : Task :=
  mkTask "A" (daysFromCivil 2023 10 1) (daysFromCivil 2023 10 5) ["B"]

def taskB2310 : Task :=
  mkTask "B" (daysFromCivil 2023 10 1) (daysFromCivil 2023 10 10) []

/-! ### Basic lemmas about the per-pass step -/

lemma cascadeStep_of_not_shifts (snap : List Task) (t : Task)
    (h : taskShifts snap t = false) : cascadeStep snap t = t := by
  unfold cascadeStep
  split_ifs with h1 h2 h3
  · rfl
  · exfalso
    unfold taskShifts at h
    simp [h1, h2, h3] at h
  · rfl
  · rfl

lemma cascadeStep_of_shifts (snap : List Task) (t : Task)
    (h : taskShifts snap t = true) :
    (cascadeStep snap t).startDate = maxDepEnd snap t.dependencies + 1 ∧
      t.startDate < maxDepEnd snap t.dependencies + 1 := by
  unfold taskShifts at h
  simp only [Bool.and_eq_true, Bool.not_eq_true', decide_eq_true_eq] at h
  obtain ⟨h1, h2, h3⟩ := h
  unfold cascadeStep
  rw [if_neg (by simp [h1]), if_pos h2, if_pos h3]
  exact ⟨rfl, h3⟩

lemma cascadePass_of_not_changed (ts : List Task)
    (h : passChanged ts = false) : cascadePass ts = ts := by
  unfold passChanged at h
  rw [List.any_eq_false] at h
  unfold cascadePass
  calc ts.map (cascadeStep ts)
      = ts.map id := by
        apply List.map_congr_left
        intro t ht
        exact cascadeStep_of_not_shifts ts t (by simpa using h t ht)
    _ = ts := List.map_id ts

lemma cascadeIter_of_not_changed (n : Nat) (ts : List Task)
    (h : passChanged ts = false) : cascadeIter n ts = ts := by
  cases n with
  | zero => rfl
  | succ n =>
    unfold cascadeIter
    rw [if_neg (by simp [h]), cascadePass_of_not_changed ts h]

/-! ### Lemmas about the dependency-maximum fold -/

lemma depFold_ge (snap : List Task) (acc : Int) (depId : String) :
    acc ≤ depFold snap acc depId := by
  unfold depFold
  cases mapLookup snap depId with
  | none => simp
  | some dep =>
    simp only
    split
    · omega
    · omega

lemma foldl_depFold_ge (snap : List Task) (deps : List String) (acc : Int) :
    acc ≤ deps.foldl (depFold snap) acc := by
  induction deps generalizing acc with
  | nil => simp [List.foldl]
  | cons d rest ih =>
    calc acc ≤ depFold snap acc d := depFold_ge snap acc d
      _ ≤ rest.foldl (depFold snap) (depFold snap acc d) := ih _

lemma maxDepEnd_nonneg (snap : List Task) (deps : List String) :
    0 ≤ maxDepEnd snap deps :=
  foldl_depFold_ge snap deps 0

lemma le_depFold_of_lookup (snap : List Task) (acc : Int) (x : String) (u : Task)
    (hx : mapLookup snap x = some u) : u.endDate ≤ depFold snap acc x := by
  simp only [depFold, hx]
  split
  · omega
  · omega

lemma foldl_depFold_ge_mem (snap : List Task) (deps : List String) :
    ∀ (acc : Int) (d : Task), d ∈ deps.filterMap (mapLookup snap) →
      d.endDate ≤ deps.foldl (depFold snap) acc := by
  induction deps with
  | nil =>
    intro acc d hd
    simp at hd
  | cons x rest ih =>
    intro acc d hd
    rw [List.foldl_cons]
    cases hx : mapLookup snap x with
    | none =>
      have hd' : d ∈ rest.filterMap (mapLookup snap) := by
        simpa [List.filterMap_cons, hx] using hd
      exact ih _ d hd'
    | some u =>
      have hd' : d = u ∨ d ∈ rest.filterMap (mapLookup snap) := by
        simpa [List.filterMap_cons, hx] using hd
      rcases hd' with h | h
      · subst h
        calc d.endDate ≤ depFold snap acc x := le_depFold_of_lookup snap acc x d hx
          _ ≤ rest.foldl (depFold snap) (depFold snap acc x) :=
              foldl_depFold_ge snap rest _
      · exact ih _ d h

lemma maxDepEnd_ge_resolved (snap : List Task) (t : Task) (d : Task)
    (hd : d ∈ resolvedDeps snap t) :
    d.endDate ≤ maxDepEnd snap t.dependencies :=
  foldl_depFold_ge_mem snap t.dependencies 0 d hd

lemma mapLookup_mem (ts : List Task) (id : String) (u : Task)
    (h : mapLookup ts id = some u) : u ∈ ts := by
  unfold mapLookup at h
  suffices H : ∀ (l : List Task) (acc : Option Task),
      l.foldl (fun acc t => if t.id = id then some t else acc) acc = some u →
      u ∈ l ∨ acc = some u by
    rcases H ts none h with hm | hm
    · exact hm
    · simp at hm
  intro l
  induction l with
  | nil =>
    intro acc h
    right
    exact h
  | cons x rest ih =>
    intro acc h
    rw [List.foldl_cons] at h
    rcases ih _ h with hm | hm
    · left
      exact List.mem_cons_of_mem x hm
    · have hm' : (if x.id = id then some x else acc) = some u := hm
      by_cases hx : x.id = id
      · rw [if_pos hx] at hm'
        left
        exact List.mem_cons.mpr (Or.inl (Option.some_injective _ hm').symm)
      · rw [if_neg hx] at hm'
        right
        exact hm'

lemma mapLookup_eq_none (ts : List Task) (id : String)
    (h : ∀ u ∈ ts, u.id ≠ id) : mapLookup ts id = none := by
  unfold mapLookup
  suffices H : ∀ (l : List Task), (∀ u ∈ l, u.id ≠ id) →
      l.foldl (fun acc t => if t.id = id then some t else acc) none = none from
    H ts h
  intro l
  induction l with
  | nil =>
    intro _
    rfl
  | cons x rest ih =>
    intro hl
    simp only [List.foldl_cons, if_neg (hl x (List.mem_cons_self x rest))]
    exact ih fun u hu => hl u (List.mem_cons_of_mem x hu)

lemma maxDepEnd_eq_zero (snap : List Task) (deps : List String)
    (h : ∀ d ∈ deps.filterMap (mapLookup snap), d.endDate ≤ 0) :
    maxDepEnd snap deps = 0 := by
  unfold maxDepEnd
  induction deps with
  | nil => rfl
  | cons x rest ih =>
    rw [List.foldl_cons]
    have hx : depFold snap 0 x = 0 := by
      cases hl : mapLookup snap x with
      | none => simp [depFold, hl]
      | some u =>
        have hu : u ∈ (x :: rest).filterMap (mapLookup snap) := by
          simp [List.filterMap_cons, hl]
        have hle := h u hu
        simp only [depFold, hl]
        rw [if_neg (by omega : ¬ u.endDate > 0)]
    rw [hx]
    refine ih fun d hd => h d ?_
    cases hl : mapLookup snap x with
    | none => simpa [List.filterMap_cons, hl] using hd
    | some u => simp [List.filterMap_cons, hl, hd]

/-! ### Pointwise preservation through the iteration -/

lemma forall2_trans_aux {R : Task → Task → Prop}
    (htrans : ∀ a b c, R a b → R b c → R a c) :
    ∀ {l1 l2 l3 : List Task}, List.Forall₂ R l1 l2 → List.Forall₂ R l2 l3 →
      List.Forall₂ R l1 l3 := by
  intro l1 l2 l3 h12
  induction h12 generalizing l3 with
  | nil =>
    intro h23
    cases h23
    exact List.Forall₂.nil
  | cons hab _ ih =>
    intro h23
    cases h23 with
    | cons hbc h'' => exact List.Forall₂.cons (htrans _ _ _ hab hbc) (ih h'')

lemma forall2_cascadePass {R : Task → Task → Prop}
    (hstep : ∀ snap t, R t (cascadeStep snap t)) (ts : List Task) :
    List.Forall₂ R ts (cascadePass ts) := by
  unfold cascadePass
  rw [List.forall₂_map_right_iff, List.forall₂_same]
  intro t _
  exact hstep ts t

lemma forall2_cascadeIter {R : Task → Task → Prop}
    (hstep : ∀ snap t, R t (cascadeStep snap t))
    (hrefl : ∀ t, R t t)
    (htrans : ∀ a b c, R a b → R b c → R a c) :
    ∀ (n : Nat) (ts : List Task), List.Forall₂ R ts (cascadeIter n ts) := by
  intro n
  induction n with
  | zero =>
    intro ts
    rw [show cascadeIter 0 ts = ts from rfl, List.forall₂_same]
    intro t _
    exact hrefl t
  | succ n ih =>
    intro ts
    show List.Forall₂ R ts
      (if passChanged ts then cascadeIter n (cascadePass ts) else cascadePass ts)
    by_cases hc : passChanged ts = true
    · rw [if_pos hc]
      exact forall2_trans_aux htrans (forall2_cascadePass hstep ts) (ih (cascadePass ts))
    · rw [if_neg hc]
      exact forall2_cascadePass hstep ts

lemma cascadeStep_frame (snap : List Task) (t : Task) :
    frameOf (cascadeStep snap t) = frameOf t ∧
      (cascadeStep snap t).endDate - (cascadeStep snap t).startDate =
        t.endDate - t.startDate := by
  unfold cascadeStep
  split_ifs
  · exact ⟨rfl, rfl⟩
  · refine ⟨rfl, ?_⟩
    simp only
    omega
  · exact ⟨rfl, rfl⟩
  · exact ⟨rfl, rfl⟩

lemma cascadeStep_id (snap : List Task) (t : Task) :
    (cascadeStep snap t).id = t.id := by
  unfold cascadeStep
  split_ifs <;> rfl

lemma cascade_master (ts : List Task) :
    List.Forall₂
      (fun a b => frameOf b = frameOf a ∧
        b.endDate - b.startDate = a.endDate - a.startDate)
      ts (cascadeSchedule ts) := by
  refine forall2_cascadeIter ?_ ?_ ?_ 50 ts
  · exact fun snap t => cascadeStep_frame snap t
  · exact fun t => ⟨rfl, rfl⟩
  · intro a b c hab hbc
    exact ⟨hbc.1.trans hab.1, hbc.2.trans hab.2⟩

/-! ### Pass counting -/

lemma cascadeIter_eq_passIter :
    ∀ (n : Nat) (ts : List Task), ∃ k ≤ n, cascadeIter n ts = cascadePassIter k ts := by
  intro n
  induction n with
  | zero =>
    intro ts
    exact ⟨0, Nat.le_refl 0, rfl⟩
  | succ n ih =>
    intro ts
    by_cases hc : passChanged ts = true
    · obtain ⟨k, hk, he⟩ := ih (cascadePass ts)
      refine ⟨k + 1, Nat.succ_le_succ hk, ?_⟩
      show (if passChanged ts then cascadeIter n (cascadePass ts) else cascadePass ts) =
        cascadePassIter (k + 1) ts
      rw [if_pos hc]
      exact he
    · refine ⟨1, Nat.succ_le_succ (Nat.zero_le n), ?_⟩
      show (if passChanged ts then cascadeIter n (cascadePass ts) else cascadePass ts) =
        cascadePassIter 1 ts
      rw [if_neg hc]
      rfl

/-! ### Unresolved and pre-epoch dependencies -/

lemma cascadeStep_of_unresolved (snap : List Task) (t : Task)
    (h : ∀ depId ∈ t.dependencies, mapLookup snap depId = none) :
    cascadeStep snap t = t := by
  have hempty : t.dependencies.filterMap (mapLookup snap) = [] := by
    rw [List.filterMap_eq_nil_iff]
    intro depId hdep
    rw [h depId hdep]
  have hm : maxDepEnd snap t.dependencies = 0 :=
    maxDepEnd_eq_zero snap t.dependencies (by rw [hempty]; intro d hd; simp at hd)
  unfold cascadeStep
  split_ifs with h1 h2 h3
  · rfl
  · exfalso
    rw [hm] at h2
    exact lt_irrefl 0 h2
  · rfl
  · rfl

lemma cascadeStep_of_nonpos (snap : List Task) (t : Task)
    (h : ∀ d ∈ resolvedDeps snap t, d.endDate ≤ 0) :
    cascadeStep snap t = t := by
  have hm : maxDepEnd snap t.dependencies = 0 :=
    maxDepEnd_eq_zero snap t.dependencies h
  unfold cascadeStep
  split_ifs with h1 h2 h3
  · rfl
  · exfalso
    rw [hm] at h2
    exact lt_irrefl 0 h2
  · rfl
  · rfl

lemma not_shifts_invariant (snap : List Task) (t : Task)
    (h : taskShifts snap t = false) (d : Task) (hd : d ∈ resolvedDeps snap t)
    (hpos : 0 < d.endDate) : d.endDate < t.startDate := by
  have hm := maxDepEnd_ge_resolved snap t d hd
  unfold taskShifts at h
  simp only [Bool.and_eq_false_iff, Bool.not_eq_false', decide_eq_false_iff_not] at h
  rcases h with h | h | h
  · exfalso
    unfold resolvedDeps at hd
    rw [List.isEmpty_iff.mp h] at hd
    simp at hd
  · exact absurd (lt_of_lt_of_le hpos hm) h
  · omega

lemma passChanged_of_nonpos (ts : List Task) (h : ∀ t ∈ ts, t.endDate ≤ 0) :
    passChanged ts = false := by
  unfold passChanged
  rw [List.any_eq_false]
  intro t _
  have hm : maxDepEnd ts t.dependencies = 0 := by
    apply maxDepEnd_eq_zero
    intro d hd
    obtain ⟨depId, _, hsome⟩ := List.mem_filterMap.mp hd
    exact h d (mapLookup_mem ts depId d hsome)
  unfold taskShifts
  simp [hm]

lemma cascadeIter_ghost : ∀ (n : Nat) (ts : List Task) (i : Nat) (t : Task),
    ts[i]? = some t →
    (∀ depId ∈ t.dependencies, ∀ u ∈ ts, u.id ≠ depId) →
    (cascadeIter n ts)[i]? = some t := by
  intro n
  induction n with
  | zero =>
    intro ts i t hget _
    exact hget
  | succ n ih =>
    intro ts i t hget hghost
    have hstep : cascadeStep ts t = t :=
      cascadeStep_of_unresolved ts t fun depId hdep =>
        mapLookup_eq_none ts depId (hghost depId hdep)
    have hpass : (cascadePass ts)[i]? = some t := by
      unfold cascadePass
      rw [List.getElem?_map, hget]
      simp [hstep]
    show (if passChanged ts then cascadeIter n (cascadePass ts)
      else cascadePass ts)[i]? = some t
    by_cases hc : passChanged ts = true
    · rw [if_pos hc]
      refine ih (cascadePass ts) i t hpass ?_
      intro depId hdep v hv
      obtain ⟨u, hu, hvu⟩ := List.mem_map.mp hv
      have hid : v.id = u.id := by
        rw [← hvu]
        exact cascadeStep_id ts u
      rw [hid]
      exact hghost depId hdep u hu
    · rw [if_neg hc]
      exact hpass

/-! ### Closed-form behaviour on the synthetic cycle -/

lemma cycPass (s : Int) (hs : 0 ≤ s) :
    cascadePass (cycPair s) = cycPair (s + 2) := by
  have h1 : s + 1 > 0 := by omega
  have h2 : s < s + 1 + 1 := by omega
  simp [cycPair, cascadePass, cascadeStep, mkTask, maxDepEnd, depFold, mapLookup, h1, h2]
  constructor <;> omega

lemma cycChanged (s : Int) (hs : 0 ≤ s) : passChanged (cycPair s) = true := by
  have h1 : s + 1 > 0 := by omega
  have h2 : s < s + 1 + 1 := by omega
  simp [cycPair, passChanged, taskShifts, mkTask, maxDepEnd, depFold, mapLookup, h1, h2]

lemma cycIter : ∀ (n : Nat) (s : Int), 0 ≤ s →
    cascadeIter n (cycPair s) = cycPair (s + 2 * n) := by
  intro n
  induction n with
  | zero =>
    intro s hs
    show cycPair s = cycPair (s + 2 * 0)
    norm_num
  | succ n ih =>
    intro s hs
    show (if passChanged (cycPair s) then cascadeIter n (cascadePass (cycPair s))
      else cascadePass (cycPair s)) = cycPair (s + 2 * (n + 1))
    rw [if_pos (cycChanged s hs), cycPass s hs, ih (s + 2) (by omega)]
    ring_nf

lemma cascadeSchedule_cyc : cascadeSchedule (cycPair 0) = cycPair 100 := by
  have h := cycIter 50 0 (by norm_num)
  norm_num at h
  exact h

/-! ### Claims -/

/-- Claim C1, counterexample: on the synthetic dependency cycle (A depends on
B, B depends on A, both 1970-01-01 to 1970-01-02) the 50-pass cap truncates
the iteration while the finish-to-start invariant is still violated, so the
output of cascadeSchedule contains a task whose start date is not strictly
after the end date of one of its resolved dependencies. -/
theorem cascade_fs_invariant_cex :
    ¬ (∀ t ∈ cascadeSchedule (cycPair 0),
        ∀ d ∈ resolvedDeps (cascadeSchedule (cycPair 0)) t,
          d.endDate < t.startDate) := by
  rw [cascadeSchedule_cyc]
  decide

/-- Claim C1 (amended): when the iteration lands on a fixpoint (its final
pass makes no change, in particular whenever it converges within the 50-pass
cap), every task in the output of cascadeSchedule starts strictly after the
end date of each of its resolved dependencies whose end date is after the
1970-01-01 epoch (the epoch sentinel exempts older dependencies). -/
theorem cascade_fs_invariant (ts : List Task)
    (hconv : passChanged (cascadeSchedule ts) = false) :
    ∀ t ∈ cascadeSchedule ts, ∀ d ∈ resolvedDeps (cascadeSchedule ts) t,
      0 < d.endDate → d.endDate < t.startDate := by
  intro t ht d hd hpos
  have hns : taskShifts (cascadeSchedule ts) t = false := by
    unfold passChanged at hconv
    have := List.any_eq_false.mp hconv t ht
    simpa using this
  exact not_shifts_invariant (cascadeSchedule ts) t hns d hd hpos

/-- Witness for C1 at the two-task chain A (no deps, days 0-1), B (depends on
A, days 0-1): the cascade converges and the invariant holds in the output. -/
theorem cascade_fs_invariant_witness :
    passChanged (cascadeSchedule [chainTaskA, chainTaskB]) = false ∧
    (∀ t ∈ cascadeSchedule [chainTaskA, chainTaskB],
      ∀ d ∈ resolvedDeps (cascadeSchedule [chainTaskA, chainTaskB]) t,
        0 < d.endDate → d.endDate < t.startDate) :=
  ⟨by decide, cascade_fs_invariant [chainTaskA, chainTaskB] (by decide)⟩

/-- Claim C2, counterexample: on the synthetic cycle the first cascade stops
at the 50-pass cap with both tasks at days 100-101, and a second cascade runs
50 further passes, reaching days 200-201, so cascadeSchedule is not
idempotent on every task list. -/
theorem cascade_idempotent_cex :
    cascadeSchedule (cascadeSchedule (cycPair 0)) ≠ cascadeSchedule (cycPair 0) := by
  rw [cascadeSchedule_cyc]
  show cascadeSchedule (cycPair 100) ≠ cycPair 100
  unfold cascadeSchedule
  rw [cycIter 50 100 (by norm_num)]
  norm_num
  decide

/-- Claim C2 (amended): whenever the first cascade lands on a fixpoint (its
final pass makes no change, in particular whenever it converges within the
50-pass cap), a second cascadeSchedule returns its input unchanged. -/
theorem cascade_idempotent (ts : List Task)
    (hconv : passChanged (cascadeSchedule ts) = false) :
    cascadeSchedule (cascadeSchedule ts) = cascadeSchedule ts :=
  cascadeIter_of_not_changed 50 (cascadeSchedule ts) hconv

/-- Witness for C2 at the converging two-task chain. -/
theorem cascade_idempotent_witness :
    passChanged (cascadeSchedule [chainTaskA, chainTaskB]) = false ∧
    cascadeSchedule (cascadeSchedule [chainTaskA, chainTaskB]) =
      cascadeSchedule [chainTaskA, chainTaskB] :=
  ⟨by decide, cascade_idempotent [chainTaskA, chainTaskB] (by decide)⟩

/-- Claim C3: checkDependencies agrees everywhere with the conflict check
written from the words of the spec (first violating resolved dependency in
stored order, suggested date one day after its end, null when no resolved
dependency violates), and on task A (2023-10-01 to 2023-10-05) depending on
task B (2023-10-01 to 2023-10-10) it returns the conflict naming B with
suggested start 2023-10-11. -/
theorem checkDependencies_correct :
    (∀ (u : Task) (allTasks : List Task),
      checkDependencies u allTasks = checkConflictSpec u allTasks) ∧
    checkDependencies taskA2310 [taskA2310, taskB2310] =
      some { dependency := taskB2310, suggestedDate := daysFromCivil 2023 10 11 } := by
  constructor
  · intro u allTasks
    cases h : u.dependencies with
    | nil => simp [checkDependencies, checkConflictSpec, h]
    | cons x rest =>
      simp only [checkDependencies, checkConflictSpec, h, List.isEmpty_cons,
        Bool.false_eq_true, if_false]
      congr 1
      funext depId
      cases hf : allTasks.find? (fun t => t.id = depId) with
      | none => rfl
      | some depTask => rfl
  · decide

/-- Claim C4: cascadeSchedule always returns the result of at most 50
applications of the per-pass function (the embedding is a total function, so
termination and determinism hold by construction), and on the synthetic cycle
(A depends on B, B depends on A, both days 0-1) it returns the deterministic
still-violating result with both tasks at days 100-101. -/
theorem cascade_bounded_passes :
    (∀ ts : List Task, ∃ k ≤ 50, cascadeSchedule ts = cascadePassIter k ts) ∧
      cascadeSchedule (cycPair 0) = cycPair 100 :=
  ⟨fun ts => cascadeIter_eq_passIter 50 ts, cascadeSchedule_cyc⟩

/-- Claim C5: cascadeSchedule preserves every task's duration: the output
list corresponds pointwise to the input, with the same id and the same
difference between end date and start date. -/
theorem cascade_preserves_duration (ts : List Task) :
    List.Forall₂
      (fun a b => b.id = a.id ∧ b.endDate - b.startDate = a.endDate - a.startDate)
      ts (cascadeSchedule ts) :=
  (cascade_master ts).imp fun _ _ h => ⟨congrArg Prod.fst h.1, h.2⟩

/-- Claim C6, counterexample: a task with startDate after endDate and no
dependencies is returned by cascadeSchedule unchanged, so the engine does not
restore the ordering invariant. -/
theorem cascade_start_le_end_cex :
    ¬ (∀ t ∈ cascadeSchedule [negTask], t.startDate ≤ t.endDate) := by
  decide

/-- Claim C6 (amended): cascadeSchedule never repairs nor breaks the per-task
ordering invariant: pointwise, an output task satisfies startDate ≤ endDate
exactly when the corresponding input task does, because the difference of the
two dates is preserved. -/
theorem cascade_start_le_end_iff (ts : List Task) :
    List.Forall₂
      (fun a b => a.startDate ≤ a.endDate ↔ b.startDate ≤ b.endDate)
      ts (cascadeSchedule ts) :=
  (cascade_master ts).imp fun a b h => by
    have hd := h.2
    omega

/-- Claim C7: a task none of whose dependency ids matches the id of any task
in the set is returned by cascadeSchedule at the same position completely
unchanged (unknown ids are silently skipped; the embedding is a total
function, so no input can make the engine fail). -/
theorem cascade_ghost_unchanged (ts : List Task) (i : Nat) (t : Task)
    (hget : ts[i]? = some t)
    (hghost : ∀ depId ∈ t.dependencies, ∀ u ∈ ts, u.id ≠ depId) :
    (cascadeSchedule ts)[i]? = some t :=
  cascadeIter_ghost 50 ts i t hget hghost

/-- Witness for C7 at a task whose only dependency id is "ghost". -/
theorem cascade_ghost_unchanged_witness :
    ([ghostTask][0]? = some ghostTask) ∧
    (∀ depId ∈ ghostTask.dependencies, ∀ u ∈ [ghostTask], u.id ≠ depId) ∧
    (cascadeSchedule [ghostTask])[0]? = some ghostTask :=
  ⟨rfl, by decide, cascade_ghost_unchanged [ghostTask] 0 ghostTask rfl (by decide)⟩

/-- Claim C8: the merge step of handleConfirmChanges rewrites each changed
task's dates, applies a provided non-empty new assignee (keeping the old one
for a missing or empty-string one), leaves status, gmpCritical, category and
dependencies of every task untouched, appends the new tasks with the isNew
and reason markers removed so the merged length is the original length plus
the number of new tasks, and passes the merged set through cascadeSchedule. -/
theorem handleConfirmChanges_merge (tasks : List Task)
    (changes : List ProposedChange) (newTasks : List Task) :
    (mergeProposal tasks changes newTasks).length = tasks.length + newTasks.length ∧
    List.Forall₂ (fun t m =>
      m.status = t.status ∧ m.gmpCritical = t.gmpCritical ∧
      m.category = t.category ∧ m.dependencies = t.dependencies ∧
      (match changes.find? (fun c => c.taskId = t.id) with
       | some c =>
         m.startDate = c.newStartDate ∧ m.endDate = c.newEndDate ∧
         (∀ a, c.newAssignee = some a → a ≠ "" → m.assignee = a) ∧
         ((c.newAssignee = none ∨ c.newAssignee = some "") → m.assignee = t.assignee)
       | none => m = t))
      tasks (tasks.map (applyChange changes)) ∧
    (∀ n ∈ newTasks.map finalizeNewTask, n.isNew = none ∧ n.reason = none) ∧
    handleConfirmChanges tasks changes newTasks =
      cascadeSchedule (mergeProposal tasks changes newTasks) := by
  refine ⟨by simp [mergeProposal], ?_, ?_, rfl⟩
  · rw [List.forall₂_map_right_iff, List.forall₂_same]
    intro t _
    cases hc : changes.find? (fun c => c.taskId = t.id) with
    | none => simp [applyChange, hc]
    | some c =>
      refine ⟨by simp [applyChange, hc], by simp [applyChange, hc],
        by simp [applyChange, hc], by simp [applyChange, hc], ?_⟩
      have hassign : (applyChange changes t).assignee =
          applyAssignee c.newAssignee t.assignee := by
        simp [applyChange, hc]
      refine ⟨by simp [applyChange, hc], by simp [applyChange, hc], ?_, ?_⟩
      · intro a ha hne
        rw [hassign, ha]
        simp [applyAssignee, hne]
      · intro ha
        rcases ha with ha | ha <;> rw [hassign, ha] <;> simp [applyAssignee]
  · intro n hn
    obtain ⟨t, _, rfl⟩ := List.mem_map.mp hn
    exact ⟨rfl, rfl⟩

/-- Claim C9: cascadeSchedule writes only the two date fields: the output has
the same length, in order, and each output task agrees with its input task on
id, name, assignee, category, duration, status, dependencies, gmpCritical,
progress, isNew and reason (the frameOf tuple); the embedding is a pure
function over a fresh list, so the input list is never mutated. -/
theorem cascade_writes_only_dates (ts : List Task) :
    (cascadeSchedule ts).length = ts.length ∧
    List.Forall₂ (fun a b => frameOf b = frameOf a) ts (cascadeSchedule ts) :=
  ⟨(cascade_master ts).length_eq.symm, (cascade_master ts).imp fun _ _ h => h.1⟩

/-- Claim C10: the epoch sentinel: a dependency whose end date is on or
before 1970-01-01 (day 0) imposes no start-date constraint.  A task all of
whose resolved dependencies end on or before the epoch is left unchanged by
the per-pass step even when it violates the finish-to-start invariant, and a
task set entirely before the epoch is returned by cascadeSchedule unchanged. -/
theorem cascade_epoch_sentinel :
    (∀ ts : List Task, (∀ t ∈ ts, t.endDate ≤ 0) → cascadeSchedule ts = ts) ∧
    (∀ (snap : List Task) (t : Task),
      (∀ d ∈ resolvedDeps snap t, d.endDate ≤ 0) → cascadeStep snap t = t) := by
  constructor
  · intro ts h
    exact cascadeIter_of_not_changed 50 ts (passChanged_of_nonpos ts h)
  · intro snap t h
    exact cascadeStep_of_nonpos snap t h

/-- Witness for C10 at two pre-epoch tasks where P starts before its
dependency Q ends (invariant violated) yet nothing is shifted. -/
theorem cascade_epoch_sentinel_witness :
    (∀ t ∈ [preEpochP, preEpochQ], t.endDate ≤ 0) ∧
    cascadeSchedule [preEpochP, preEpochQ] = [preEpochP, preEpochQ] ∧
    (∀ d ∈ resolvedDeps [preEpochP, preEpochQ] preEpochP, d.endDate ≤ 0) ∧
    cascadeStep [preEpochP, preEpochQ] preEpochP = preEpochP :=
  ⟨by decide, cascade_epoch_sentinel.1 [preEpochP, preEpochQ] (by decide),
    by decide, cascade_epoch_sentinel.2 [preEpochP, preEpochQ] preEpochP (by decide)⟩

end CellaPM
